import Mathlib

/-!
Shallow embedding of the `pdf-coordinate-mapper` library.

The observable behaviour of the TypeScript code is modelled as pure
functions:

* `fillPdf` (src/fillPdf.ts) is modelled as a function from the page list,
  the mapping list, the data map and the options to the list of
  `drawText` calls it issues (page index, text, x, y, size, color).
* `parseColor` (src/fillPdf.ts) is modelled over JS `parseInt(·, 16)`
  semantics; a `NaN` component is `Option.none`.
* `getFormFields` and `fillFormPdf` (src/index.ts) are modelled over an
  explicit AcroForm state: a list of named, typed fields.  pdf-lib calls
  that throw (`getForm`, `getField`, `select` of a missing option) are
  modelled with `Option`/`Except`; the `try/catch` in the source maps a
  failure back to the unchanged form.
* the download handler of form-fill-example/src/FormFillApp.tsx is
  modelled over an abstract fill oracle `Bool → Except ε α`.
-/

namespace PdfMapper

/-- A JavaScript value as it may appear in `ModelData`
(`Record<string, string | number | boolean | undefined | null>`). -/
inductive JsValue where
  | undef : JsValue
  | null : JsValue
  | str : String → JsValue
  | num : Int → JsValue
  | bool : Bool → JsValue
deriving DecidableEq

/-- JS `String(value)` on the values of `ModelData`. -/
def jsToString : JsValue → String
  | .undef => "undefined"
  | .null => "null"
  | .str s => s
  | .num n => toString n
  | .bool b => Bool.rec "false" "true" b

/-- `ModelData`: a flat key/value record, modelled as an association list. -/
abbrev ModelData := List (String × JsValue)

/-- `data[key]` on a JS record: the first binding of the key, `undefined`
when the key is absent. -/
def lookupData (data : ModelData) (key : String) : JsValue :=
  match data.find? (fun p => p.1 = key) with
  | some p => p.2
  | none => JsValue.undef

/-- A single coordinate mapping (src/types.ts `FieldMapping`). -/
structure FieldMapping where
  fieldName : String
  page : Int
  x : ℚ
  y : ℚ
  width : Option ℚ
  height : Option ℚ
  fontSize : Option ℚ
  fontColor : Option String
  label : Option String
deriving DecidableEq

/-- Options of the fill routine (src/types.ts `FillOptions`). -/
structure FillOptions where
  defaultFontSize : Option ℚ
  defaultFontColor : Option String
  fontFamily : Option String
deriving DecidableEq

/-- The part of a pdf-lib page that `fillPdf` reads: its height. -/
structure Page where
  height : ℚ
deriving DecidableEq

/-- The numeric value of a hexadecimal digit character, by char code
(`0`-`9`, `a`-`f`, `A`-`F`); `none` for any other character. -/
def hexDigitVal (c : Char) : Option Nat :=
  if 48 ≤ c.toNat ∧ c.toNat ≤ 57 then some (c.toNat - 48)
  else if 97 ≤ c.toNat ∧ c.toNat ≤ 102 then some (c.toNat - 87)
  else if 65 ≤ c.toNat ∧ c.toNat ≤ 70 then some (c.toNat - 55)
  else none

/-- Whether a character is a hexadecimal digit. -/
def isHexDigit (c : Char) : Bool := (hexDigitVal c).isSome

/-- Value of a list of hexadecimal digit characters, most significant
first (the accumulator loop of JS `parseInt`). -/
def hexVal (cs : List Char) : Nat :=
  cs.foldl (fun acc c => acc * 16 + (hexDigitVal c).getD 0) 0

/-- JS `parseInt(s, 16)`: parses the maximal leading run of hex digits;
`NaN` (here `none`) when the first character is not a hex digit. -/
def parseIntHex (cs : List Char) : Option Nat :=
  match cs with
  | [] => none
  | c :: _ =>
    if isHexDigit c then some (hexVal (cs.takeWhile isHexDigit)) else none

/-- JS `hex.replace("#", "")`: removes the first occurrence of `#`. -/
def removeFirstHash : List Char → List Char
  | [] => []
  | c :: rest => if c = '#' then rest else c :: removeFirstHash rest

/-- An rgb color as handed to pdf-lib; a `none` component models `NaN`. -/
structure Color where
  r : Option ℚ
  g : Option ℚ
  b : Option ℚ
deriving DecidableEq

/-- `parseColor` of src/fillPdf.ts: strip the first `#`, split into three
two-character substrings, `parseInt(·, 16) / 255` each. -/
def parseColor (hex : String) : Color :=
  let h := removeFirstHash hex.data
  { r := (parseIntHex (h.take 2)).map (fun n => (n : ℚ) / 255)
    g := (parseIntHex ((h.drop 2).take 2)).map (fun n => (n : ℚ) / 255)
    b := (parseIntHex ((h.drop 4).take 2)).map (fun n => (n : ℚ) / 255) }

/-- One `page.drawText` call issued by `fillPdf`. -/
structure DrawCall where
  text : String
  x : ℚ
  y : ℚ
  size : ℚ
  color : Color
deriving DecidableEq

/-- The body of `fillPdf`'s loop for one mapping: `none` when the mapping
is skipped (no data value, or page index out of range), otherwise the
page index and the `drawText` call. -/
def processMapping (pages : List Page) (data : ModelData) (opts : FillOptions)
    (m : FieldMapping) : Option (Nat × DrawCall) :=
  match lookupData data m.fieldName with
  | .undef => none
  | .null => none
  | v =>
    if m.page - 1 < 0 ∨ (pages.length : Int) ≤ m.page - 1 then none
    else
      match pages.get? (m.page - 1).toNat with
      | none => none
      | some page =>
        some ((m.page - 1).toNat,
          { text := jsToString v
            x := m.x
            y := page.height - m.y - m.fontSize.getD (opts.defaultFontSize.getD 12)
            size := m.fontSize.getD (opts.defaultFontSize.getD 12)
            color := parseColor (m.fontColor.getD (opts.defaultFontColor.getD "#000000")) })

/-- `fillPdf` of src/fillPdf.ts, as the list of `drawText` calls it issues
(each tagged with its 0-based page index), in loop order. -/
def fillPdf (pages : List Page) (mappings : List FieldMapping)
    (data : ModelData) (opts : FillOptions) : List (Nat × DrawCall) :=
  mappings.filterMap (processMapping pages data opts)

/-- The value state of one AcroForm field, tagged by its pdf-lib class. -/
inductive FieldState where
  | text : String → FieldState
  | checkbox : Bool → FieldState
  | dropdown : List String → Option String → FieldState
  | radio : List String → Option String → FieldState
  | other : FieldState
deriving DecidableEq

/-- A named AcroForm field. -/
structure FormField where
  name : String
  state : FieldState
deriving DecidableEq

/-- The AcroForm of a document: its list of fields. -/
abbrev Form := List FormField

/-- `form.getField(name)` without the throw: the first field of that name. -/
def findField (form : Form) (n : String) : Option FormField :=
  form.find? (fun f => f.name = n)

/-- Replace the state of the first field named `n`. -/
def updateField : Form → String → FieldState → Form
  | [], _, _ => []
  | f :: rest, n, st =>
    if f.name = n then { name := n, state := st } :: rest
    else f :: updateField rest n st

/-- The `if/else instanceof` chain of `fillFormPdf` on one field: the new
field state, or `none` when the pdf-lib call throws (selecting an option
a dropdown or radio group does not have). An unrecognized field type
falls through the chain untouched. -/
def trySet : FieldState → String → Option FieldState
  | .text _, t => some (.text t)
  | .checkbox _, t => some (.checkbox (t == "true" || t == "1" || t == "yes"))
  | .dropdown opts _, t =>
    if t ∈ opts then some (.dropdown opts (some t)) else none
  | .radio opts _, t =>
    if t ∈ opts then some (.radio opts (some t)) else none
  | .other, _ => some .other

/-- `fieldMap ? fieldMap[dataKey] : dataKey` in `fillFormPdf`:
with a field map, look the key up in it; otherwise use the key itself. -/
def resolveName (fieldMap : Option (List (String × String))) (k : String) :
    Option String :=
  match fieldMap with
  | none => some k
  | some fm => (fm.find? (fun p => p.1 = k)).map (fun p => p.2)

/-- One iteration of `fillFormPdf`'s loop over `Object.entries(data)`:
skip `undefined`/`null` values, resolve the field name (a missing or
empty resolution is falsy and skipped), fetch the field (a throwing
`getField` is caught), set its value (a throwing setter is caught). -/
def applyEntry (fieldMap : Option (List (String × String))) (form : Form)
    (e : String × JsValue) : Form :=
  match e.2 with
  | .undef => form
  | .null => form
  | v =>
    match resolveName fieldMap e.1 with
    | none => form
    | some n =>
      if n = "" then form
      else
        match findField form n with
        | none => form
        | some f =>
          match trySet f.state (jsToString v) with
          | none => form
          | some st => updateField form n st

/-- `form.flatten()`: the interactive fields are converted to static page
content and removed from the form. -/
def flattenForm (_form : Form) : Form := []

/-- `fillFormPdf` of src/index.ts, as its effect on the AcroForm state:
fold the entry loop over the data, then flatten when requested. -/
def fillFormPdf (form : Form) (data : List (String × JsValue))
    (fieldMap : Option (List (String × String))) (flatten : Bool) : Form :=
  let filled := data.foldl (applyEntry fieldMap) form
  if flatten then flattenForm filled else filled

/-- The tag `getFormFields` reports for a field. -/
def typeName : FieldState → String
  | .text _ => "text"
  | .checkbox _ => "checkbox"
  | .dropdown _ _ => "dropdown"
  | .radio _ _ => "radio"
  | .other => "other"

/-- The option list `getFormFields` reports for a field. -/
def optionsOf : FieldState → Option (List String)
  | .dropdown opts _ => some opts
  | .radio opts _ => some opts
  | _ => none

/-- The `FormFieldInfo` record of src/index.ts. -/
structure FormFieldInfo where
  name : String
  type : String
  options : Option (List String)
deriving DecidableEq

/-- The descriptor `getFormFields` builds for one field. -/
def fieldInfo (f : FormField) : FormFieldInfo :=
  { name := f.name, type := typeName f.state, options := optionsOf f.state }

/-- `getFormFields` of src/index.ts: map the classifier over the fields;
the `try/catch` turns any throw from `getForm`/`getFields` into `[]`. -/
def getFormFields (formResult : Except String Form) : List FormFieldInfo :=
  match formResult with
  | .error _ => []
  | .ok form => form.map fieldInfo

/-- The shape of a form `fillFormPdf`'s failure conditions can observe:
each field's name, type tag and option list (its `fieldInfo`). -/
def formShape (form : Form) : List FormFieldInfo := form.map fieldInfo

/-- The conditions under which `fillFormPdf`'s loop leaves the form
untouched for one data entry: no value, unresolvable or empty field
name, no field of that name, a dropdown/radio without the requested
option, or a field type the `instanceof` chain does not recognize. -/
def entryFails (form : Form) (fieldMap : Option (List (String × String)))
    (k : String) (v : JsValue) : Bool :=
  match v with
  | .undef => true
  | .null => true
  | w =>
    match resolveName fieldMap k with
    | none => true
    | some n =>
      if n = "" then true
      else
        match findField form n with
        | none => true
        | some f =>
          match f.state with
          | .dropdown opts _ => !(opts.contains (jsToString w))
          | .radio opts _ => !(opts.contains (jsToString w))
          | .other => true
          | _ => false

/-- The retry logic of `handleDownload` in
form-fill-example/src/FormFillApp.tsx: try the fill with the user's
flatten preference; when that throws and flattening was on, retry
without flattening; otherwise rethrow. -/
def handleDownloadFill {ε α : Type} (fill : Bool → Except ε α)
    (flattenOnDownload : Bool) : Except ε α :=
  match fill flattenOnDownload with
  | .ok bytes => .ok bytes
  | .error e => if flattenOnDownload then fill false else .error e

/-! Concrete data used to instantiate the theorems below on small inputs. -/

/-- A one-page document of US-Letter height. -/
def pagesW : List Page := [{ height := 792 }]

/-- A mapping of the field `name` to page 1, point (50, 100). -/
def mapW : FieldMapping :=
  { fieldName := "name", page := 1, x := 50, y := 100, width := none,
    height := none, fontSize := none, fontColor := none, label := none }

/-- A data record binding `name`. -/
def dataW : ModelData := [("name", JsValue.str "Alice")]

/-- Empty fill options. -/
def optsW : FillOptions :=
  { defaultFontSize := none, defaultFontColor := none, fontFamily := none }

/-- The draw call `fillPdf` issues for `mapW` on `pagesW` with `dataW`. -/
def dcW : DrawCall :=
  { text := "Alice", x := 50, y := 680, size := 12,
    color := { r := some 0, g := some 0, b := some 0 } }

/-- A mapping whose page index 0 is out of range (pages are 1-based). -/
def mapPage0W : FieldMapping :=
  { fieldName := "name", page := 0, x := 10, y := 10, width := none,
    height := none, fontSize := none, fontColor := none, label := none }

/-- A mapping whose field name is bound by no entry of `dataW`. -/
def mapMissingW : FieldMapping :=
  { fieldName := "missing", page := 1, x := 10, y := 10, width := none,
    height := none, fontSize := none, fontColor := none, label := none }

/-- A form with one checkbox, one text field and one dropdown. -/
def formW : Form :=
  [{ name := "agree", state := FieldState.checkbox false },
   { name := "city", state := FieldState.text "" },
   { name := "color", state := FieldState.dropdown ["red", "blue"] none }]

/-- A fill oracle that throws when asked to flatten and succeeds without. -/
def fillW : Bool → Except String (List Nat) := fun b =>
  if b then Except.error "flatten failed" else Except.ok [1, 2, 3]

/-- A field-name map that does not mention the key `city`. -/
def fmW : List (String × String) := [("a", "b")]

/-! Theorems. -/

/-- The first field named `n` after `updateField` is that name with the
new state, whenever a field of that name existed. -/
theorem findField_updateField (n : String) (st : FieldState) :
    ∀ (form : Form) (f : FormField), findField form n = some f →
    findField (updateField form n st) n = some { name := n, state := st } := by
  intro form
  induction form with
  | nil => intro f hf; simp [findField] at hf
  | cons g rest ih =>
    intro f hf
    by_cases hg : g.name = n
    · simp only [updateField, if_pos hg]
      unfold findField
      exact List.find?_cons_of_pos _ (by simp)
    · simp only [updateField, if_neg hg]
      unfold findField at hf ⊢
      rw [List.find?_cons_of_neg _ (by simpa using hg)] at hf ⊢
      exact ih f hf

/-- C1: for every mapping `fillPdf` actually processes (data value present,
page in range), the baseline Y handed to `drawText` is the page height
minus the mapping's `y` minus the effective font size, and that size is
the mapping's `fontSize`, else the `defaultFontSize` option, else 12. -/
theorem fillPdf_baselineY (pages : List Page) (mappings : List FieldMapping)
    (data : ModelData) (opts : FillOptions) (i : Nat) (dc : DrawCall)
    (h : (i, dc) ∈ fillPdf pages mappings data opts) :
    ∃ m ∈ mappings, ∃ pg, pages.get? i = some pg ∧
      dc.size = m.fontSize.getD (opts.defaultFontSize.getD 12) ∧
      dc.y = pg.height - m.y - dc.size := by
  rw [fillPdf, List.mem_filterMap] at h
  obtain ⟨m, hm, hpm⟩ := h
  refine ⟨m, hm, ?_⟩
  unfold processMapping at hpm
  split at hpm
  · exact absurd hpm (by simp)
  · exact absurd hpm (by simp)
  · split at hpm
    · exact absurd hpm (by simp)
    · split at hpm
      · exact absurd hpm (by simp)
      · rename_i page hpage
        rw [Option.some_inj, Prod.mk.injEq] at hpm
        obtain ⟨hi, hdc⟩ := hpm
        refine ⟨page, ?_, ?_, ?_⟩
        · rw [← hi]; exact hpage
        · rw [← hdc]
        · rw [← hdc]

theorem fillPdf_baselineY_witness :
    (0, dcW) ∈ fillPdf pagesW [mapW] dataW optsW ∧
    ∃ m ∈ [mapW], ∃ pg, pagesW.get? 0 = some pg ∧
      dcW.size = m.fontSize.getD (optsW.defaultFontSize.getD 12) ∧
      dcW.y = pg.height - m.y - dcW.size := by
  have hmem : (0, dcW) ∈ fillPdf pagesW [mapW] dataW optsW := by
    simp [fillPdf, processMapping, lookupData, dataW, mapW, pagesW, optsW, dcW,
      jsToString, parseColor, parseIntHex, isHexDigit, hexDigitVal, hexVal,
      removeFirstHash]
    norm_num
  exact ⟨hmem, fillPdf_baselineY pagesW [mapW] dataW optsW 0 dcW hmem⟩

/-- C2: a mapping whose 1-based page index is out of the document's page
range produces no draw call, and `fillPdf` on a mapping list containing it
equals `fillPdf` on the list without it: the other mappings are still
processed and the output is unchanged with respect to this mapping. -/
theorem fillPdf_out_of_range (pages : List Page) (data : ModelData)
    (opts : FillOptions) (m : FieldMapping) (ms1 ms2 : List FieldMapping)
    (h : m.page - 1 < 0 ∨ (pages.length : Int) ≤ m.page - 1) :
    processMapping pages data opts m = none ∧
    fillPdf pages (ms1 ++ m :: ms2) data opts =
      fillPdf pages (ms1 ++ ms2) data opts := by
  have hnone : processMapping pages data opts m = none := by
    unfold processMapping
    split
    · rfl
    · rfl
    · rw [if_pos h]
  refine ⟨hnone, ?_⟩
  unfold fillPdf
  rw [List.filterMap_append, List.filterMap_append, List.filterMap_cons, hnone]

theorem fillPdf_out_of_range_witness :
    (mapPage0W.page - 1 < 0 ∨ (([(⟨792⟩ : Page)].length : Int) ≤ mapPage0W.page - 1)) ∧
    (processMapping [(⟨792⟩ : Page)] dataW optsW mapPage0W = none ∧
     fillPdf [(⟨792⟩ : Page)] ([mapW] ++ mapPage0W :: []) dataW optsW =
       fillPdf [(⟨792⟩ : Page)] ([mapW] ++ []) dataW optsW) :=
  ⟨by decide,
   fillPdf_out_of_range [(⟨792⟩ : Page)] dataW optsW mapPage0W [mapW] [] (by decide)⟩

/-- C3: a mapping whose field name is bound by no entry of the data map
produces no draw call, and `fillPdf` on a mapping list containing it
equals `fillPdf` on the list without it: the remaining mappings are still
processed. -/
theorem fillPdf_absent_field (pages : List Page) (data : ModelData)
    (opts : FillOptions) (m : FieldMapping) (ms1 ms2 : List FieldMapping)
    (h : ∀ p ∈ data, p.1 ≠ m.fieldName) :
    processMapping pages data opts m = none ∧
    fillPdf pages (ms1 ++ m :: ms2) data opts =
      fillPdf pages (ms1 ++ ms2) data opts := by
  have hlk : lookupData data m.fieldName = JsValue.undef := by
    unfold lookupData
    rw [List.find?_eq_none.mpr]
    intro p hp
    simpa using h p hp
  have hnone : processMapping pages data opts m = none := by
    unfold processMapping
    rw [hlk]
  refine ⟨hnone, ?_⟩
  unfold fillPdf
  rw [List.filterMap_append, List.filterMap_append, List.filterMap_cons, hnone]

theorem fillPdf_absent_field_witness :
    (∀ p ∈ dataW, p.1 ≠ mapMissingW.fieldName) ∧
    (processMapping pagesW dataW optsW mapMissingW = none ∧
     fillPdf pagesW ([] ++ mapMissingW :: [mapW]) dataW optsW =
       fillPdf pagesW ([] ++ [mapW]) dataW optsW) :=
  ⟨by decide,
   fillPdf_absent_field pagesW dataW optsW mapMissingW [] [mapW] (by decide)⟩

/-- C4: when `fillFormPdf` addresses a checkbox field with a present data
value, the checkbox ends checked exactly when the value's string form is
`true`, `1` or `yes`, and unchecked for every other value. -/
theorem fillFormPdf_checkbox (form : Form) (fm : Option (List (String × String)))
    (k : String) (v : JsValue) (n : String) (c : Bool)
    (hv : v ≠ JsValue.undef) (hv' : v ≠ JsValue.null)
    (hn : resolveName fm k = some n) (hne : n ≠ "")
    (hf : findField form n = some { name := n, state := FieldState.checkbox c }) :
    findField (fillFormPdf form [(k, v)] fm false) n =
      some { name := n,
             state := FieldState.checkbox
               (jsToString v == "true" || jsToString v == "1" || jsToString v == "yes") } := by
  have hcore : applyEntry fm form (k, v) =
      updateField form n
        (FieldState.checkbox
          (jsToString v == "true" || jsToString v == "1" || jsToString v == "yes")) := by
    cases v with
    | undef => exact absurd rfl hv
    | null => exact absurd rfl hv'
    | str s => simp [applyEntry, hn, hne, hf, trySet]
    | num m => simp [applyEntry, hn, hne, hf, trySet]
    | bool b => simp [applyEntry, hn, hne, hf, trySet]
  rw [show fillFormPdf form [(k, v)] fm false = applyEntry fm form (k, v) from rfl, hcore]
  exact findField_updateField n _ form _ hf

theorem fillFormPdf_checkbox_witness :
    (resolveName none "agree" = some "agree" ∧
     findField formW "agree" = some { name := "agree", state := FieldState.checkbox false }) ∧
    findField (fillFormPdf formW [("agree", JsValue.str "yes")] none false) "agree" =
      some { name := "agree",
             state := FieldState.checkbox
               (jsToString (JsValue.str "yes") == "true" ||
                 jsToString (JsValue.str "yes") == "1" ||
                 jsToString (JsValue.str "yes") == "yes") } :=
  ⟨⟨by decide, by decide⟩,
   fillFormPdf_checkbox formW none "agree" (JsValue.str "yes") "agree" false
     (by decide) (by decide) (by decide) (by decide) (by decide)⟩

/-- C7: filling a text field through `fillFormPdf` (without flattening,
so the field survives) and re-reading it yields exactly the supplied
string. -/
theorem fillFormPdf_text_roundtrip (form : Form)
    (fm : Option (List (String × String))) (k s n t0 : String)
    (hn : resolveName fm k = some n) (hne : n ≠ "")
    (hf : findField form n = some { name := n, state := FieldState.text t0 }) :
    findField (fillFormPdf form [(k, JsValue.str s)] fm false) n =
      some { name := n, state := FieldState.text s } := by
  have hcore : applyEntry fm form (k, JsValue.str s) =
      updateField form n (FieldState.text s) := by
    simp [applyEntry, hn, hne, hf, trySet, jsToString]
  rw [show fillFormPdf form [(k, JsValue.str s)] fm false =
        applyEntry fm form (k, JsValue.str s) from rfl, hcore]
  exact findField_updateField n _ form _ hf

theorem fillFormPdf_text_roundtrip_witness :
    (resolveName none "city" = some "city" ∧
     findField formW "city" = some { name := "city", state := FieldState.text "" }) ∧
    findField (fillFormPdf formW [("city", JsValue.str "Oslo")] none false) "city" =
      some { name := "city", state := FieldState.text "Oslo" } :=
  ⟨⟨by decide, by decide⟩,
   fillFormPdf_text_roundtrip formW none "city" "Oslo" "city" ""
     (by decide) (by decide) (by decide)⟩

/-- C5: on a document whose form has zero fields, and likewise when
fetching the form itself throws, `getFormFields` returns the empty list
rather than an error. -/
theorem getFormFields_no_fields (r : Except String Form)
    (h : r = Except.ok [] ∨ ∃ e, r = Except.error e) :
    getFormFields r = [] := by
  rcases h with h | ⟨e, h⟩ <;> subst h <;> rfl

theorem getFormFields_no_fields_witness :
    ((Except.ok [] : Except String Form) = Except.ok [] ∨
      ∃ e, (Except.ok [] : Except String Form) = Except.error e) ∧
    getFormFields (Except.ok []) = [] :=
  ⟨Or.inl rfl, getFormFields_no_fields (Except.ok []) (Or.inl rfl)⟩

/-- C8: in the example download handler, when the fill with flattening on
throws, the failure is caught and the fill is retried without
flattening, so a successful retry yields its bytes rather than an
error. -/
theorem handleDownload_flatten_fallback {ε α : Type} (fill : Bool → Except ε α)
    (e : ε) (bytes : α) (hfail : fill true = Except.error e)
    (hretry : fill false = Except.ok bytes) :
    handleDownloadFill fill true = Except.ok bytes := by
  unfold handleDownloadFill
  rw [hfail]
  simpa using hretry

theorem handleDownload_flatten_fallback_witness :
    (fillW true = Except.error "flatten failed" ∧ fillW false = Except.ok [1, 2, 3]) ∧
    handleDownloadFill fillW true = Except.ok [1, 2, 3] :=
  ⟨⟨rfl, rfl⟩, handleDownload_flatten_fallback fillW "flatten failed" [1, 2, 3] rfl rfl⟩

/-- C9: when a `fieldMap` is supplied, a data key that is absent from it
(or mapped to the empty string) modifies no form field — even on a form
that has a field of that very name — and without a `fieldMap` the data
key itself is the resolved field name. -/
theorem fillFormPdf_fieldMap_gate (form : Form) (d1 d2 : List (String × JsValue))
    (k : String) (v : JsValue) (fm : List (String × String)) (fl : Bool)
    (h : resolveName (some fm) k = none ∨ resolveName (some fm) k = some "") :
    fillFormPdf form (d1 ++ (k, v) :: d2) (some fm) fl =
      fillFormPdf form (d1 ++ d2) (some fm) fl ∧
    resolveName none k = some k := by
  have hid : ∀ g : Form, applyEntry (some fm) g (k, v) = g := by
    intro g
    cases v with
    | undef => rfl
    | null => rfl
    | str s => rcases h with h | h <;> simp [applyEntry, h]
    | num m => rcases h with h | h <;> simp [applyEntry, h]
    | bool b => rcases h with h | h <;> simp [applyEntry, h]
  refine ⟨?_, rfl⟩
  unfold fillFormPdf
  rw [List.foldl_append, List.foldl_append, List.foldl_cons, hid]

theorem fillFormPdf_fieldMap_gate_witness :
    (resolveName (some fmW) "city" = none ∨ resolveName (some fmW) "city" = some "") ∧
    (fillFormPdf formW ([] ++ ("city", JsValue.str "X") :: []) (some fmW) false =
       fillFormPdf formW ([] ++ []) (some fmW) false ∧
     resolveName none "city" = some "city") :=
  ⟨by decide,
   fillFormPdf_fieldMap_gate formW [] [] "city" (JsValue.str "X") fmW false (by decide)⟩

/-- A successful setter keeps the field's type tag and option list. -/
theorem trySet_shape {st st' : FieldState} {t : String}
    (h : trySet st t = some st') :
    typeName st' = typeName st ∧ optionsOf st' = optionsOf st := by
  cases st with
  | text s =>
    simp only [trySet, Option.some_inj] at h
    subst h; exact ⟨rfl, rfl⟩
  | checkbox b =>
    simp only [trySet, Option.some_inj] at h
    subst h; exact ⟨rfl, rfl⟩
  | dropdown opts sel =>
    simp only [trySet] at h
    split at h
    · rw [Option.some_inj] at h; subst h; exact ⟨rfl, rfl⟩
    · exact absurd h (by simp)
  | radio opts sel =>
    simp only [trySet] at h
    split at h
    · rw [Option.some_inj] at h; subst h; exact ⟨rfl, rfl⟩
    · exact absurd h (by simp)
  | other =>
    simp only [trySet, Option.some_inj] at h
    subst h; exact ⟨rfl, rfl⟩

/-- `updateField` with a shape-preserving new state preserves the shape
of the whole form. -/
theorem updateField_shape (n : String) (st : FieldState) :
    ∀ (form : Form) (f : FormField), findField form n = some f →
    typeName st = typeName f.state → optionsOf st = optionsOf f.state →
    formShape (updateField form n st) = formShape form := by
  intro form
  induction form with
  | nil => intro f hf _ _; simp [findField] at hf
  | cons g rest ih =>
    intro f hf hty hopt
    by_cases hg : g.name = n
    · unfold findField at hf
      rw [List.find?_cons_of_pos _ (by simpa using hg)] at hf
      obtain rfl : g = f := Option.some_inj.mp hf
      simp only [updateField, if_pos hg, formShape, List.map_cons]
      congr 1
      simp [fieldInfo, hg, hty, hopt]
    · unfold findField at hf
      rw [List.find?_cons_of_neg _ (by simpa using hg)] at hf
      simp only [updateField, if_neg hg, formShape, List.map_cons]
      congr 1
      exact ih f hf hty hopt

/-- One loop iteration of `fillFormPdf` never changes a field's name,
type tag or option list. -/
theorem applyEntry_shape (fm : Option (List (String × String))) (form : Form)
    (e : String × JsValue) : formShape (applyEntry fm form e) = formShape form := by
  unfold applyEntry
  split
  · rfl
  · rfl
  · split
    · rfl
    · split
      · rfl
      · split
        · rfl
        · split
          · rfl
          · rename_i f hfind x2 st hset
            exact updateField_shape _ st form f hfind
              (trySet_shape hset).1 (trySet_shape hset).2

/-- The whole entry loop preserves the shape of the form. -/
theorem foldl_applyEntry_shape (fm : Option (List (String × String)))
    (l : List (String × JsValue)) :
    ∀ form : Form, formShape (List.foldl (applyEntry fm) form l) = formShape form := by
  induction l with
  | nil => intro form; rfl
  | cons e rest ih =>
    intro form
    rw [List.foldl_cons, ih, applyEntry_shape]

/-- Looking up a field name in two forms of the same shape finds fields
with the same descriptor. -/
theorem findField_of_shape (n : String) :
    ∀ (form g : Form), formShape g = formShape form →
    (findField g n).map fieldInfo = (findField form n).map fieldInfo := by
  intro form
  induction form with
  | nil =>
    intro g hg
    have : g = [] := by simpa [formShape] using hg
    subst this; rfl
  | cons f rest ih =>
    intro g hg
    cases g with
    | nil => simp [formShape] at hg
    | cons g0 grest =>
      simp only [formShape, List.map_cons, List.cons.injEq] at hg
      obtain ⟨h0, hrest⟩ := hg
      have hname : g0.name = f.name := by
        have := congrArg FormFieldInfo.name h0
        simpa [fieldInfo] using this
      by_cases hf : f.name = n
      · unfold findField
        rw [List.find?_cons_of_pos _ (by simp [hname, hf]),
          List.find?_cons_of_pos _ (by simp [hf])]
        simp [h0]
      · unfold findField
        rw [List.find?_cons_of_neg _ (by simp [hname, hf]),
          List.find?_cons_of_neg _ (by simp [hf])]
        exact ih grest hrest

/-- A type tag of `dropdown` comes only from a dropdown state. -/
theorem typeName_dropdown {st : FieldState} (h : typeName st = "dropdown") :
    ∃ opts sel, st = FieldState.dropdown opts sel := by
  cases st <;> first
    | exact ⟨_, _, rfl⟩
    | simp [typeName] at h

/-- A type tag of `radio` comes only from a radio-group state. -/
theorem typeName_radio {st : FieldState} (h : typeName st = "radio") :
    ∃ opts sel, st = FieldState.radio opts sel := by
  cases st <;> first
    | exact ⟨_, _, rfl⟩
    | simp [typeName] at h

/-- A type tag of `other` comes only from the unrecognized state. -/
theorem typeName_other {st : FieldState} (h : typeName st = "other") :
    st = FieldState.other := by
  cases st <;> first
    | rfl
    | simp [typeName] at h

/-- Re-writing a found field's own state back leaves the form unchanged. -/
theorem updateField_self : ∀ (form : Form) (n : String) (f : FormField),
    findField form n = some f → updateField form n f.state = form := by
  intro form
  induction form with
  | nil => intro n f _; rfl
  | cons g rest ih =>
    intro n f hf
    by_cases hg : g.name = n
    · unfold findField at hf
      rw [List.find?_cons_of_pos _ (by simpa using hg)] at hf
      obtain rfl : g = f := Option.some_inj.mp hf
      simp only [updateField, if_pos hg]
      congr 1
      rw [← hg]
    · unfold findField at hf
      rw [List.find?_cons_of_neg _ (by simpa using hg)] at hf
      simp only [updateField, if_neg hg]
      rw [ih n f hf]

/-- On any form of the same shape as `form`, an entry that satisfies one
of the failure conditions is a no-op of the loop body. -/
theorem applyEntry_of_fails (fm : Option (List (String × String)))
    (k : String) (v : JsValue) (form g : Form)
    (hsh : formShape g = formShape form)
    (hfail : entryFails form fm k v = true) :
    applyEntry fm g (k, v) = g := by
  cases v
  case undef => rfl
  case null => rfl
  all_goals
  · unfold entryFails at hfail
    cases hr : resolveName fm k with
    | none => simp [applyEntry, hr]
    | some nm =>
      simp only [hr] at hfail
      by_cases hne : nm = ""
      · simp [applyEntry, hr, hne]
      · rw [if_neg hne] at hfail
        have hcorr := findField_of_shape nm form g hsh
        cases hff : findField form nm with
        | none =>
          rw [hff] at hcorr
          simp at hcorr
          have hgnone : findField g nm = none := by
            cases hgf : findField g nm with
            | none => rfl
            | some f' => rw [hgf] at hcorr; simp at hcorr
          simp [applyEntry, hr, hne, hgnone]
        | some f =>
          rw [hff] at hfail hcorr
          dsimp only at hfail
          cases hgf : findField g nm with
          | none => rw [hgf] at hcorr; simp at hcorr
          | some f' =>
            rw [hgf] at hcorr
            rw [Option.map_some', Option.map_some', Option.some_inj] at hcorr
            have hty : typeName f'.state = typeName f.state := by
              have := congrArg FormFieldInfo.type hcorr
              simpa [fieldInfo] using this
            have hopts : optionsOf f'.state = optionsOf f.state := by
              have := congrArg FormFieldInfo.options hcorr
              simpa [fieldInfo] using this
            cases hstf : f.state with
            | text t0 => rw [hstf] at hfail; simp at hfail
            | checkbox b0 => rw [hstf] at hfail; simp at hfail
            | dropdown opts sel =>
              rw [hstf] at hfail hty
              obtain ⟨opts', sel', hst'⟩ := typeName_dropdown hty
              rw [hst'] at hopts
              rw [hstf] at hopts
              simp only [optionsOf, Option.some_inj] at hopts
              subst hopts
              have hmem : ∀ x : String, (!List.contains opts' x) = true → x ∉ opts' := by
                intro x hx
                simpa using hx
              simp [applyEntry, hr, hne, hgf, hst', trySet, hmem _ hfail]
            | radio opts sel =>
              rw [hstf] at hfail hty
              obtain ⟨opts', sel', hst'⟩ := typeName_radio hty
              rw [hst'] at hopts
              rw [hstf] at hopts
              simp only [optionsOf, Option.some_inj] at hopts
              subst hopts
              have hmem : ∀ x : String, (!List.contains opts' x) = true → x ∉ opts' := by
                intro x hx
                simpa using hx
              simp [applyEntry, hr, hne, hgf, hst', trySet, hmem _ hfail]
            | other =>
              rw [hstf] at hty
              have hst' := typeName_other hty
              have hupd := updateField_self g nm f' hgf
              rw [hst'] at hupd
              simp [applyEntry, hr, hne, hgf, hst', trySet, hupd]

/-- C6: a data entry whose field name does not resolve, or resolves to a
missing field, an unrecognized field type, or a choice field without the
requested option, is skipped silently: `fillFormPdf` on a data list
containing it equals `fillFormPdf` on the list without it, and every
other entry is still processed. -/
theorem fillFormPdf_skips_failing_entry (form : Form)
    (d1 d2 : List (String × JsValue)) (k : String) (v : JsValue)
    (fm : Option (List (String × String))) (fl : Bool)
    (h : entryFails form fm k v = true) :
    fillFormPdf form (d1 ++ (k, v) :: d2) fm fl = fillFormPdf form (d1 ++ d2) fm fl := by
  unfold fillFormPdf
  rw [List.foldl_append, List.foldl_append, List.foldl_cons,
    applyEntry_of_fails fm k v form _ (foldl_applyEntry_shape fm d1 form) h]

theorem fillFormPdf_skips_failing_entry_witness :
    entryFails formW none "nope" (JsValue.str "x") = true ∧
    fillFormPdf formW ([("agree", JsValue.str "yes")] ++ ("nope", JsValue.str "x") :: []) none false =
      fillFormPdf formW ([("agree", JsValue.str "yes")] ++ []) none false :=
  ⟨by decide,
   fillFormPdf_skips_failing_entry formW [("agree", JsValue.str "yes")] []
     "nope" (JsValue.str "x") none false (by decide)⟩

/-- Any hexadecimal digit has value at most 15 (and a non-digit defaults
to 0). -/
theorem hexDigitVal_getD_le (c : Char) : (hexDigitVal c).getD 0 ≤ 15 := by
  unfold hexDigitVal
  split
  · rename_i h
    simp only [Option.getD_some]
    omega
  · split
    · rename_i h
      simp only [Option.getD_some]
      omega
    · split
      · rename_i h
        simp only [Option.getD_some]
        omega
      · simp

/-- The value of two hexadecimal digit characters is at most 255. -/
theorem hexVal_two_le (a b : Char) : hexVal [a, b] ≤ 255 := by
  have ha := hexDigitVal_getD_le a
  have hb := hexDigitVal_getD_le b
  unfold hexVal
  simp only [List.foldl_cons, List.foldl_nil]
  omega

/-- C10: on a color string of `#` followed by six hexadecimal digits,
`parseColor` yields defined red, green and blue components, each within
`[0, 1]` — the well-formedness under which `fillPdf` hands valid colors
to the drawing call. -/
theorem parseColor_hex6 (c1 c2 c3 c4 c5 c6 : Char)
    (h1 : isHexDigit c1 = true) (h2 : isHexDigit c2 = true)
    (h3 : isHexDigit c3 = true) (h4 : isHexDigit c4 = true)
    (h5 : isHexDigit c5 = true) (h6 : isHexDigit c6 = true) :
    ∃ r g b : ℚ,
      parseColor (String.mk ['#', c1, c2, c3, c4, c5, c6]) =
        { r := some r, g := some g, b := some b } ∧
      0 ≤ r ∧ r ≤ 1 ∧ 0 ≤ g ∧ g ≤ 1 ∧ 0 ≤ b ∧ b ≤ 1 := by
  have hle : ∀ x y : Char, ((hexVal [x, y] : ℚ) / 255) ≤ 1 := by
    intro x y
    rw [div_le_one (by norm_num)]
    have := hexVal_two_le x y
    exact_mod_cast le_trans (Nat.cast_le.mpr this) (by norm_num)
  have hge : ∀ x y : Char, (0 : ℚ) ≤ (hexVal [x, y] : ℚ) / 255 := by
    intro x y
    positivity
  refine ⟨(hexVal [c1, c2] : ℚ) / 255, (hexVal [c3, c4] : ℚ) / 255,
    (hexVal [c5, c6] : ℚ) / 255, ?_,
    hge c1 c2, hle c1 c2, hge c3 c4, hle c3 c4, hge c5 c6, hle c5 c6⟩
  unfold parseColor
  simp [removeFirstHash, parseIntHex, h1, h2, h3, h4, h5, h6, List.takeWhile]

theorem parseColor_hex6_witness :
    (isHexDigit '0' = true ∧ isHexDigit 'f' = true ∧ isHexDigit '8' = true) ∧
    ∃ r g b : ℚ,
      parseColor (String.mk ['#', '0', '0', 'f', 'f', '8', '0']) =
        { r := some r, g := some g, b := some b } ∧
      0 ≤ r ∧ r ≤ 1 ∧ 0 ≤ g ∧ g ≤ 1 ∧ 0 ≤ b ∧ b ≤ 1 :=
  ⟨⟨by decide, by decide, by decide⟩,
   parseColor_hex6 '0' '0' 'f' 'f' '8' '0'
     (by decide) (by decide) (by decide) (by decide) (by decide) (by decide)⟩

end PdfMapper
